import Mathlib

/-!
# Foundation layer of the 6502 emulator (`6502.cpp`)

A shallow embedding of the memory (`Mem`), the processor state (`CPU`) and the
cycle-accounted bus operations of `6502.cpp`, followed by theorems about them.

Modelling conventions.

* `uint8_t`, `uint16_t` and `uint32_t` values are natural numbers carried with
  their range (`Fin 256`, `Fin 65536`, `Fin 4294967296`).  All arithmetic is done on
  `Nat`/`Int` after the usual integer promotion, and every conversion back to a
  fixed-width type is an explicit reduction modulo `2^w` (`toByte`, `toWord`,
  `toU32`, `intToByte`, `intToWord`).
* The cycle budget `s32* Cycles` is threaded explicitly: every operation takes the
  budget and returns the new one.  Signed overflow is undefined in C++; a decrement
  is modelled with the two's complement wrap `wrapS32`, and every theorem about
  the budget assumes that the values involved are representable, so that no
  decrement overflows.
* The anonymous union of `PS` and `Flag` is one byte of storage; the code only
  ever goes through `Flag`, so the state carries the eight one-bit fields.
* A member function that mutates `*this` returns the new `CPU`.
-/

namespace Emu6502

/-! ## Fixed-width integers -/

/-- The memory size, `1024 * 64` cells. -/
abbrev MAX_MEM : Nat := 1024 * 64

abbrev Byte := Fin 256
abbrev Word := Fin 65536
abbrev u32 := Fin 4294967296
abbrev s32 := Int
abbrev SByte := Int

/-- Conversion of a promoted non-negative value to `uint8_t`. -/
def toByte (n : Nat) : Byte := ⟨n % 256, Nat.mod_lt _ (by decide)⟩

/-- Conversion of a promoted non-negative value to `uint16_t`. -/
def toWord (n : Nat) : Word := ⟨n % 65536, Nat.mod_lt _ (by decide)⟩

/-- Conversion of a promoted non-negative value to `uint32_t`. -/
def toU32 (n : Nat) : u32 := ⟨n % 4294967296, Nat.mod_lt _ (by decide)⟩

/-- Conversion of a promoted, possibly negative, value to `uint8_t`. -/
def intToByte (z : Int) : Byte :=
  ⟨(z % 256).toNat, by
    have h1 : 0 ≤ z % 256 := Int.emod_nonneg z (by decide)
    have h2 : z % 256 < 256 := Int.emod_lt_of_pos z (by decide)
    omega⟩

/-- Conversion of a promoted, possibly negative, value to `uint16_t`. -/
def intToWord (z : Int) : Word :=
  ⟨(z % 65536).toNat, by
    have h1 : 0 ≤ z % 65536 := Int.emod_nonneg z (by decide)
    have h2 : z % 65536 < 65536 := Int.emod_lt_of_pos z (by decide)
    omega⟩

/-- Two's complement wrap of an integer into the range of `int32_t`. -/
def wrapS32 (z : Int) : Int := (z + 2147483648) % 4294967296 - 2147483648

/-- The cast `static_cast<SByte>` of a byte: its two's complement reading. -/
def toSByte (b : Byte) : SByte := if b.val < 128 then (b.val : Int) else (b.val : Int) - 256

/-! ## `struct Mem` -/

/-- The memory: `std::array<Byte, MAX_MEM> Data`. -/
structure Mem where
  Data : Fin MAX_MEM → Byte

/-- `Mem::Initialise`: `Data.fill(0)`. -/
def Mem.Initialise (_m : Mem) : Mem := { Data := fun _ => 0 }

/-- `Mem::ReadByte`: the cell when the address is in bounds, `0` otherwise. -/
def Mem.ReadByte (m : Mem) (Address : u32) : Byte :=
  if h : Address.val < MAX_MEM then m.Data ⟨Address.val, h⟩ else 0

/-- `Mem::WriteByte`: stores when the address is in bounds, otherwise nothing. -/
def Mem.WriteByte (m : Mem) (Address : u32) (value : Byte) : Mem :=
  if Address.val < MAX_MEM then
    { Data := fun i => if i.val = Address.val then value else m.Data i }
  else m

/-! ## `struct StatusFlags` and `struct CPU` -/

/-- The eight one-bit status flags. -/
structure StatusFlags where
  C : Fin 2
  Z : Fin 2
  I : Fin 2
  D : Fin 2
  B : Fin 2
  Unused : Fin 2
  V : Fin 2
  N : Fin 2

/-- The processor state. -/
structure CPU where
  PC : Word
  SP : Byte
  memory : Mem
  A : Byte
  X : Byte
  Y : Byte
  Flag : StatusFlags

/-- `CPU::Reset`. -/
def CPU.Reset (cpu : CPU) : CPU :=
  { PC := toWord 0xFFFC
    SP := toByte 0xFF
    Flag := { cpu.Flag with C := 0, Z := 0, I := 0, D := 0, B := 0, V := 0, N := 0 }
    A := 0
    X := 0
    Y := 0
    memory := cpu.memory.Initialise }

/-- `CPU::Fetch`. -/
def CPU.Fetch (cpu : CPU) (Cycles : s32) : Byte × CPU × s32 :=
  let Data := cpu.memory.ReadByte (toU32 cpu.PC.val)
  let cpu1 := { cpu with PC := toWord (cpu.PC.val + 1) }
  (Data, cpu1, wrapS32 (Cycles - 1))

/-- `CPU::FetchS`. -/
def CPU.FetchS (cpu : CPU) (Cycles : s32) : SByte × CPU × s32 :=
  let r := cpu.Fetch Cycles
  (toSByte r.1, r.2.1, r.2.2)

/-- `CPU::FetchW`. -/
def CPU.FetchW (cpu : CPU) (Cycles : s32) : Word × CPU × s32 :=
  let Data0 : Word := toWord (cpu.memory.ReadByte (toU32 cpu.PC.val)).val
  let cpu1 := { cpu with PC := toWord (cpu.PC.val + 1) }
  let Data1 : Word :=
    toWord (Data0.val ||| ((cpu1.memory.ReadByte (toU32 cpu1.PC.val)).val <<< 8))
  let cpu2 := { cpu1 with PC := toWord (cpu1.PC.val + 1) }
  (Data1, cpu2, wrapS32 (Cycles - 2))

/-- `CPU::RByte`. -/
def CPU.RByte (cpu : CPU) (Address : Word) (Cycles : s32) : Byte × CPU × s32 :=
  let Data := cpu.memory.ReadByte (toU32 Address.val)
  (Data, cpu, wrapS32 (Cycles - 1))

/-- `CPU::RWord`. -/
def CPU.RWord (cpu : CPU) (Address : Word) (Cycles : s32) : Word × CPU × s32 :=
  let r1 := cpu.RByte Address Cycles
  let LSB := r1.1
  let r2 := r1.2.1.RByte (toWord (Address.val + 1)) r1.2.2
  let MSB := r2.1
  (toWord (LSB.val ||| (MSB.val <<< 8)), r2.2.1, r2.2.2)

/-- `CPU::WByte`. -/
def CPU.WByte (cpu : CPU) (Value : Byte) (Address : Word) (Cycles : s32) : CPU × s32 :=
  ({ cpu with memory := cpu.memory.WriteByte (toU32 Address.val) Value },
   wrapS32 (Cycles - 1))

/-- `CPU::WWord`. -/
def CPU.WWord (cpu : CPU) (Value : Word) (Address : Word) (Cycles : s32) : CPU × s32 :=
  let m1 := cpu.memory.WriteByte (toU32 Address.val) (toByte (Value.val &&& 0xFF))
  let m2 := m1.WriteByte (toU32 (Address.val + 1)) (toByte (Value.val >>> 8))
  ({ cpu with memory := m2 }, wrapS32 (Cycles - 2))

/-- `CPU::GetSPAddress`. -/
def CPU.GetSPAddress (cpu : CPU) : Word := toWord (0x100 ||| cpu.SP.val)

/-- `CPU::PWtoS`. -/
def CPU.PWtoS (cpu : CPU) (Value : Word) (Cycles : s32) : CPU × s32 :=
  let r1 := cpu.WByte (toByte (Value.val >>> 8)) cpu.GetSPAddress Cycles
  let cpu1 := { r1.1 with SP := intToByte ((r1.1.SP.val : Int) - 1) }
  let r2 := cpu1.WByte (toByte (Value.val &&& 0xFF)) cpu1.GetSPAddress r1.2
  let cpu2 := { r2.1 with SP := intToByte ((r2.1.SP.val : Int) - 1) }
  (cpu2, r2.2)

/-- `CPU::PPCmtoS`. -/
def CPU.PPCmtoS (cpu : CPU) (Cycles : s32) : CPU × s32 :=
  cpu.PWtoS (intToWord ((cpu.PC.val : Int) - 1)) Cycles

/-- `CPU::PPCptoS`. -/
def CPU.PPCptoS (cpu : CPU) (Cycles : s32) : CPU × s32 :=
  cpu.PWtoS (intToWord ((cpu.PC.val : Int) + 1)) Cycles

/-- `CPU::PPCtoS`. -/
def CPU.PPCtoS (cpu : CPU) (Cycles : s32) : CPU × s32 :=
  cpu.PWtoS cpu.PC Cycles

/-- `CPU::PBontoS`. -/
def CPU.PBontoS (cpu : CPU) (Value : Byte) (Cycles : s32) : CPU × s32 :=
  let r1 := cpu.WByte Value cpu.GetSPAddress Cycles
  let cpu1 := { r1.1 with SP := intToByte ((r1.1.SP.val : Int) - 1) }
  (cpu1, wrapS32 (r1.2 - 1))

/-- `CPU::PBfromS`. -/
def CPU.PBfromS (cpu : CPU) (Cycles : s32) : Byte × CPU × s32 :=
  let cpu1 := { cpu with SP := toByte (cpu.SP.val + 1) }
  let c1 := wrapS32 (Cycles - 1)
  let Value := cpu1.memory.ReadByte (toU32 cpu1.GetSPAddress.val)
  (Value, cpu1, wrapS32 (c1 - 1))

/-- `CPU::PWfromS`. -/
def CPU.PWfromS (cpu : CPU) (Cycles : s32) : Word × CPU × s32 :=
  let r := cpu.RWord (toWord (cpu.GetSPAddress.val + 1)) Cycles
  let ValueFromStack := r.1
  let cpu1 := { r.2.1 with SP := toByte (r.2.1.SP.val + 2) }
  (ValueFromStack, cpu1, r.2.2)

/-- A processor state with the given memory contents, used for concrete checks. -/
def sampleCPU : CPU :=
  { PC := 0x100, SP := 0xFF,
    memory := (({ Data := fun _ => 0 } : Mem).WriteByte 0x100 0xAB).WriteByte 0x101 0xCD,
    A := 1, X := 2, Y := 3,
    Flag := { C := 1, Z := 0, I := 1, D := 0, B := 0, Unused := 1, V := 0, N := 1 } }

/-- A processor state whose program counter sits on the last address. -/
def edgeCPU : CPU := { sampleCPU with PC := 0xFFFF, SP := 0x00 }

/-! ## Arithmetic of the bitwise operations -/

theorem lor_256 (s : Nat) (h : s < 256) : 256 ||| s = 256 + s := by
  have h2 : s < 2 ^ 8 := by omega
  have key := @Nat.mul_add_lt_is_or 8 s h2 1
  simpa using key.symm

theorem lor_shl8 (l m : Nat) (h : l < 256) : l ||| (m <<< 8) = l + 256 * m := by
  have h2 : l < 2 ^ 8 := by omega
  have key := @Nat.mul_add_lt_is_or 8 l h2 m
  have e : (2 : Nat) ^ 8 = 256 := by norm_num
  rw [e] at key
  rw [Nat.shiftLeft_eq, Nat.lor_comm, e, Nat.mul_comm m 256, ← key]
  omega

theorem and_255 (n : Nat) : n &&& 0xFF = n % 256 := by
  simpa using Nat.and_pow_two_sub_one_eq_mod n 8

theorem shr_8 (n : Nat) : n >>> 8 = n / 256 := by
  simp [Nat.shiftRight_eq_div_pow]

theorem wrapS32_of_range (z : Int) (h1 : -2147483648 ≤ z) (h2 : z ≤ 2147483647) :
    wrapS32 z = z := by
  unfold wrapS32
  omega

/-! ## Memory lemmas -/

theorem Mem.ReadByte_of_lt (m : Mem) (a : u32) (h : a.val < MAX_MEM) :
    m.ReadByte a = m.Data ⟨a.val, h⟩ := by
  simp [Mem.ReadByte, h]

theorem Mem.ReadByte_of_ge (m : Mem) (a : u32) (h : MAX_MEM ≤ a.val) :
    m.ReadByte a = 0 := by
  have h2 : ¬ a.val < MAX_MEM := by omega
  simp [Mem.ReadByte, h2]

theorem Mem.WriteByte_of_ge (m : Mem) (a : u32) (v : Byte) (h : MAX_MEM ≤ a.val) :
    m.WriteByte a v = m := by
  have h2 : ¬ a.val < MAX_MEM := by omega
  simp [Mem.WriteByte, h2]

theorem Mem.ReadByte_WriteByte (m : Mem) (a b : u32) (v : Byte) :
    (m.WriteByte a v).ReadByte b =
      if b.val = a.val ∧ a.val < MAX_MEM then v else m.ReadByte b := by
  unfold Mem.WriteByte Mem.ReadByte
  by_cases ha : a.val < MAX_MEM
  · by_cases hb : b.val < MAX_MEM
    · by_cases hab : b.val = a.val <;> simp [ha, hb, hab]
    · have hab : ¬ b.val = a.val := by omega
      simp [ha, hb, hab]
  · simp [ha]

theorem toU32_val_of_lt (n : Nat) (h : n < 4294967296) : (toU32 n).val = n := by
  simp only [toU32]
  omega

theorem toWord_val (n : Nat) : (toWord n).val = n % 65536 := rfl

theorem toByte_val (n : Nat) : (toByte n).val = n % 256 := rfl

/-- Reading through a 16-bit address always hits the cell with that index. -/
theorem Mem.ReadByte_word (m : Mem) (a : Word) : m.ReadByte (toU32 a.val) = m.Data a := by
  have hp : (toU32 a.val).val = a.val := toU32_val_of_lt _ (by have := a.isLt; omega)
  have hlt : (toU32 a.val).val < MAX_MEM := by
    rw [hp]; exact a.isLt
  rw [Mem.ReadByte_of_lt _ _ hlt]
  congr 1
  exact Fin.ext hp

/-- The little-endian combination of two bytes fits a word without truncation. -/
theorem combine_val (l h : Byte) :
    (toWord (l.val ||| (h.val <<< 8))).val = l.val + 256 * h.val := by
  have hl := l.isLt
  have hh := h.isLt
  rw [toWord_val, lor_shl8 _ _ hl]
  omega

theorem Mem.WriteByte_Data (m : Mem) (a : u32) (v : Byte) (i : Fin MAX_MEM) :
    (m.WriteByte a v).Data i = if i.val = a.val then v else m.Data i := by
  unfold Mem.WriteByte
  by_cases ha : a.val < MAX_MEM
  · simp [ha]
  · have hne : ¬ i.val = a.val := by
      have := i.isLt
      omega
    simp [ha, hne]

theorem intToByte_pred_val (s : Byte) :
    (intToByte ((s.val : Int) - 1)).val = (s.val + 255) % 256 := by
  have := s.isLt
  simp only [intToByte]
  omega

/-- The stack address is `0x100 + SP`. -/
theorem CPU.GetSPAddress_val (cpu : CPU) : cpu.GetSPAddress.val = 256 + cpu.SP.val := by
  have := cpu.SP.isLt
  show (0x100 ||| cpu.SP.val) % 65536 = _
  rw [lor_256 _ this]
  omega

/-- The stack pointer after `PWtoS`. -/
theorem CPU.PWtoS_SP (cpu : CPU) (v : Word) (c : s32) :
    (cpu.PWtoS v c).1.SP.val = (cpu.SP.val + 254) % 256 := by
  have := cpu.SP.isLt
  show (intToByte (((intToByte ((cpu.SP.val : Int) - 1)).val : Int) - 1)).val = _
  rw [intToByte_pred_val, intToByte_pred_val]
  omega

/-- The memory after `PWtoS`, cell by cell. -/
theorem CPU.PWtoS_Data (cpu : CPU) (v : Word) (c : s32) (i : Fin MAX_MEM) :
    (cpu.PWtoS v c).1.memory.Data i =
      if i.val = 256 + (cpu.SP.val + 255) % 256 then toByte (v.val % 256)
      else if i.val = 256 + cpu.SP.val then toByte (v.val / 256)
      else cpu.memory.Data i := by
  have hs := cpu.SP.isLt
  have hA1 : (toU32 cpu.GetSPAddress.val).val = 256 + cpu.SP.val := by
    rw [toU32_val_of_lt _ (by have := cpu.GetSPAddress.isLt; omega), CPU.GetSPAddress_val]
  have hA2 : (toU32 ({ cpu with SP := intToByte ((cpu.SP.val : Int) - 1) } :
      CPU).GetSPAddress.val).val = 256 + (cpu.SP.val + 255) % 256 := by
    rw [toU32_val_of_lt _ (by
      have := ({ cpu with SP := intToByte ((cpu.SP.val : Int) - 1) } : CPU).GetSPAddress.isLt
      omega), CPU.GetSPAddress_val]
    show 256 + (intToByte ((cpu.SP.val : Int) - 1)).val = _
    rw [intToByte_pred_val]
  show ((cpu.memory.WriteByte (toU32 cpu.GetSPAddress.val) (toByte (v.val >>> 8))).WriteByte
      (toU32 ({ cpu with SP := intToByte ((cpu.SP.val : Int) - 1) } : CPU).GetSPAddress.val)
      (toByte (v.val &&& 0xFF))).Data i = _
  rw [Mem.WriteByte_Data, Mem.WriteByte_Data, hA1, hA2, and_255, shr_8]

theorem Mem.ReadByte_nat (m : Mem) (n : Nat) (h : n < MAX_MEM) :
    m.ReadByte (toU32 n) = m.Data ⟨n, h⟩ := by
  have hv : (toU32 n).val = n := toU32_val_of_lt _ (by simp only [MAX_MEM] at h; omega)
  have hlt : (toU32 n).val < MAX_MEM := by rw [hv]; exact h
  rw [Mem.ReadByte_of_lt _ _ hlt]
  congr 1
  exact Fin.ext hv

/-- The value `PWfromS` returns: low byte one past the stack address, high byte two past. -/
theorem CPU.PWfromS_val (cpu : CPU) (c : s32) :
    (cpu.PWfromS c).1.val =
      (cpu.memory.ReadByte (toU32 (257 + cpu.SP.val))).val +
        256 * (cpu.memory.ReadByte (toU32 (258 + cpu.SP.val))).val := by
  have hs := cpu.SP.isLt
  have hg := cpu.GetSPAddress_val
  have ha : (toWord (cpu.GetSPAddress.val + 1)).val = 257 + cpu.SP.val := by
    rw [toWord_val, hg]; omega
  have hb : (toWord ((toWord (cpu.GetSPAddress.val + 1)).val + 1)).val
      = 258 + cpu.SP.val := by
    rw [toWord_val, ha]; omega
  show (toWord ((cpu.memory.ReadByte (toU32 (toWord (cpu.GetSPAddress.val + 1)).val)).val |||
    ((cpu.memory.ReadByte
      (toU32 (toWord ((toWord (cpu.GetSPAddress.val + 1)).val + 1)).val)).val <<< 8))).val = _
  rw [combine_val, hb, ha]

/-- The stack pointer after `PWfromS`. -/
theorem CPU.PWfromS_SP (cpu : CPU) (c : s32) :
    (cpu.PWfromS c).2.1.SP.val = (cpu.SP.val + 2) % 256 := rfl

/-- Away from the two lowest stack pointer values a pushed word is popped back. -/
theorem CPU.PWtoS_PWfromS_of_two_le (cpu : CPU) (v : Word) (c1 c2 : s32)
    (h : 2 ≤ cpu.SP.val) :
    ((cpu.PWtoS v c1).1.PWfromS c2).1 = v ∧
      ((cpu.PWtoS v c1).1.PWfromS c2).2.1.SP = cpu.SP := by
  have hs := cpu.SP.isLt
  have hv := v.isLt
  have hsp := CPU.PWtoS_SP cpu v c1
  constructor
  · apply Fin.ext
    rw [CPU.PWfromS_val, hsp]
    have e1 : 257 + (cpu.SP.val + 254) % 256 = 255 + cpu.SP.val := by omega
    have e2 : 258 + (cpu.SP.val + 254) % 256 = 256 + cpu.SP.val := by omega
    rw [e1, e2,
      Mem.ReadByte_nat _ _ (by simp only [MAX_MEM]; omega : 255 + cpu.SP.val < MAX_MEM),
      Mem.ReadByte_nat _ _ (by simp only [MAX_MEM]; omega : 256 + cpu.SP.val < MAX_MEM),
      CPU.PWtoS_Data, CPU.PWtoS_Data]
    have c1 : (255 + cpu.SP.val = 256 + (cpu.SP.val + 255) % 256) := by omega
    have c2 : ¬ (256 + cpu.SP.val = 256 + (cpu.SP.val + 255) % 256) := by omega
    simp only [c1, c2, if_true, if_false, toByte_val]
    omega
  · apply Fin.ext
    rw [CPU.PWfromS_SP, hsp]
    omega

/-- The value `RWord` returns, in terms of the cells. -/
theorem CPU.RWord_val (cpu : CPU) (a : Word) (c : s32) :
    (cpu.RWord a c).1.val =
      (cpu.memory.Data a).val + 256 * (cpu.memory.Data (toWord (a.val + 1))).val := by
  show (toWord ((cpu.memory.ReadByte (toU32 a.val)).val |||
    ((cpu.memory.ReadByte (toU32 (toWord (a.val + 1)).val)).val <<< 8))).val = _
  rw [combine_val, Mem.ReadByte_word, Mem.ReadByte_word]

/-- The memory after `WWord`, cell by cell: the second write is addressed with the
untruncated `Address + 1`, so no cell receives it when `Address` is `0xFFFF`. -/
theorem CPU.WWord_Data (cpu : CPU) (v a : Word) (c : s32) (i : Fin MAX_MEM) :
    (cpu.WWord v a c).1.memory.Data i =
      if i.val = a.val + 1 then toByte (v.val / 256)
      else if i.val = a.val then toByte (v.val % 256)
      else cpu.memory.Data i := by
  have ha := a.isLt
  have h1 : (toU32 a.val).val = a.val := toU32_val_of_lt _ (by omega)
  have h2 : (toU32 (a.val + 1)).val = a.val + 1 := toU32_val_of_lt _ (by omega)
  show ((cpu.memory.WriteByte (toU32 a.val) (toByte (v.val &&& 0xFF))).WriteByte
    (toU32 (a.val + 1)) (toByte (v.val >>> 8))).Data i = _
  rw [Mem.WriteByte_Data, Mem.WriteByte_Data, h1, h2, and_255, shr_8]

/-- Below the last address a written word is read back. -/
theorem CPU.WWord_RWord_of_lt (cpu : CPU) (v a : Word) (c1 c2 : s32)
    (h : a.val < 0xFFFF) : ((cpu.WWord v a c1).1.RWord a c2).1 = v := by
  have hv := v.isLt
  apply Fin.ext
  rw [CPU.RWord_val, CPU.WWord_Data, CPU.WWord_Data]
  have e1 : ¬ (a.val = a.val + 1) := by omega
  have e2 : (toWord (a.val + 1)).val = a.val + 1 := by
    rw [toWord_val]; omega
  simp only [e1, e2, if_true, if_false, toByte_val]
  omega

/-- Pushing a byte and popping it gives the byte and the stack pointer back. -/
theorem CPU.PBontoS_PBfromS (cpu : CPU) (v : Byte) (c1 c2 : s32) :
    ((cpu.PBontoS v c1).1.PBfromS c2).1 = v ∧
      ((cpu.PBontoS v c1).1.PBfromS c2).2.1.SP = cpu.SP := by
  have hs := cpu.SP.isLt
  have hsp : toByte ((intToByte ((cpu.SP.val : Int) - 1)).val + 1) = cpu.SP := by
    apply Fin.ext
    rw [toByte_val, intToByte_pred_val]
    omega
  have hlt : (toU32 cpu.GetSPAddress.val).val < MAX_MEM := by
    rw [toU32_val_of_lt _ (by have := cpu.GetSPAddress.isLt; omega)]
    exact cpu.GetSPAddress.isLt
  constructor
  · show (cpu.memory.WriteByte (toU32 cpu.GetSPAddress.val) v).ReadByte
      (toU32 (toWord (0x100 ||| (toByte ((intToByte ((cpu.SP.val : Int) - 1)).val + 1)).val)).val)
      = v
    rw [hsp]
    show (cpu.memory.WriteByte (toU32 cpu.GetSPAddress.val) v).ReadByte
      (toU32 cpu.GetSPAddress.val) = v
    rw [Mem.ReadByte_WriteByte]
    simp [hlt]
  · exact hsp

/-! ## AddressSpace contract -/

/-- C1: for every memory state, every address `a < 65536` and every byte `v`,
`ReadByte(a)` after `WriteByte(a, v)` returns `v`. -/
theorem Mem_write_read_round_trip (m : Mem) (a : u32) (v : Byte) (h : a.val < 65536) :
    (m.WriteByte a v).ReadByte a = v := by
  have h2 : a.val < MAX_MEM := h
  simp [Mem.ReadByte_WriteByte, h2]

theorem Mem_write_read_round_trip_witness :
    (0x0102 : u32).val < 65536 ∧
      (sampleCPU.memory.WriteByte 0x0102 0x34).ReadByte 0x0102 = 0x34 :=
  ⟨by decide, Mem_write_read_round_trip sampleCPU.memory 0x0102 0x34 (by decide)⟩

/-- C2: for every 32-bit address `a >= 65536`, every memory state and every byte `v`,
`ReadByte(a)` returns `0` and `WriteByte(a, v)` leaves every in-range cell unchanged
(every cell of `Data`, and hence every in-range read). -/
theorem Mem_out_of_range_absorbed (m : Mem) (a : u32) (v : Byte) (h : 65536 ≤ a.val) :
    m.ReadByte a = 0 ∧
      (∀ i : Fin MAX_MEM, (m.WriteByte a v).Data i = m.Data i) ∧
      (∀ b : u32, (m.WriteByte a v).ReadByte b = m.ReadByte b) := by
  have h2 : MAX_MEM ≤ a.val := h
  refine ⟨Mem.ReadByte_of_ge m a h2, ?_, ?_⟩
  · intro i
    rw [Mem.WriteByte_of_ge m a v h2]
  · intro b
    rw [Mem.WriteByte_of_ge m a v h2]

theorem Mem_out_of_range_absorbed_witness :
    65536 ≤ (0x10000 : u32).val ∧
      (sampleCPU.memory.ReadByte 0x10000 = 0 ∧
        (∀ i : Fin MAX_MEM,
          (sampleCPU.memory.WriteByte 0x10000 0x7F).Data i = sampleCPU.memory.Data i) ∧
        (∀ b : u32,
          (sampleCPU.memory.WriteByte 0x10000 0x7F).ReadByte b
            = sampleCPU.memory.ReadByte b)) :=
  ⟨by decide, Mem_out_of_range_absorbed sampleCPU.memory 0x10000 0x7F (by decide)⟩

/-! ## ProcessorState contract -/

/-- C3: from every prior processor state, after `Reset` the program counter is `0xFFFC`,
the stack pointer is `0xFF`, `A`, `X` and `Y` are `0`, and reading the memory at any
address returns `0`, both through `Mem::ReadByte` at any 32-bit address and through
`CPU::RByte` at any 16-bit address. -/
theorem Reset_postcondition (cpu : CPU) :
    cpu.Reset.PC.val = 0xFFFC ∧ cpu.Reset.SP.val = 0xFF ∧
      cpu.Reset.A = 0 ∧ cpu.Reset.X = 0 ∧ cpu.Reset.Y = 0 ∧
      (∀ a : u32, cpu.Reset.memory.ReadByte a = 0) ∧
      (∀ (a : Word) (c : s32), (cpu.Reset.RByte a c).1 = 0) := by
  have hmem : ∀ a : u32, cpu.Reset.memory.ReadByte a = 0 := by
    intro a
    unfold CPU.Reset Mem.Initialise Mem.ReadByte
    by_cases h : a.val < MAX_MEM <;> simp [h]
  refine ⟨rfl, rfl, rfl, rfl, rfl, hmem, ?_⟩
  intro a c
  exact hmem (toU32 a.val)

/-- C7: for every state with program counter `p`, `Fetch` returns the memory byte at `p`
and leaves the program counter at `(p + 1) mod 65536` (so a fetch at `0xFFFF` wraps it
to `0`), with memory, stack pointer, registers and flags unchanged. -/
theorem Fetch_spec (cpu : CPU) (c : s32) :
    (cpu.Fetch c).1 = cpu.memory.Data cpu.PC ∧
      (cpu.Fetch c).2.1.PC.val = (cpu.PC.val + 1) % 65536 ∧
      (cpu.PC.val = 0xFFFF → (cpu.Fetch c).2.1.PC.val = 0) ∧
      (cpu.Fetch c).2.1.memory = cpu.memory ∧
      (cpu.Fetch c).2.1.SP = cpu.SP ∧
      (cpu.Fetch c).2.1.A = cpu.A ∧ (cpu.Fetch c).2.1.X = cpu.X ∧
      (cpu.Fetch c).2.1.Y = cpu.Y ∧ (cpu.Fetch c).2.1.Flag = cpu.Flag := by
  refine ⟨?_, rfl, ?_, rfl, rfl, rfl, rfl, rfl, rfl⟩
  · have hp : (toU32 cpu.PC.val).val = cpu.PC.val := by
      have := cpu.PC.isLt
      simp only [toU32]
      omega
    have hlt : (toU32 cpu.PC.val).val < MAX_MEM := by
      rw [hp]; exact cpu.PC.isLt
    show cpu.memory.ReadByte (toU32 cpu.PC.val) = _
    rw [Mem.ReadByte_of_lt _ _ hlt]
    congr 1
    exact Fin.ext hp
  · intro h
    show (cpu.PC.val + 1) % 65536 = 0
    rw [h]

theorem Fetch_spec_witness :
    (edgeCPU.Fetch 10).1 = edgeCPU.memory.Data edgeCPU.PC ∧
      (edgeCPU.Fetch 10).2.1.PC.val = 0 :=
  ⟨(Fetch_spec edgeCPU 10).1, (Fetch_spec edgeCPU 10).2.2.1 (by decide)⟩

/-- C5: for every state with program counter `p`, `FetchW` returns
`mem[p] + 256 * mem[(p+1) mod 65536]`, leaves the program counter at `(p + 2) mod 65536`,
and changes neither memory, stack pointer, registers nor flags; so with `0xCD` at `p`
and `0xAB` at the next address it yields `0xABCD`. -/
theorem FetchW_little_endian (cpu : CPU) (c : s32) :
    (cpu.FetchW c).1.val =
        (cpu.memory.Data cpu.PC).val +
          256 * (cpu.memory.Data ⟨(cpu.PC.val + 1) % 65536, Nat.mod_lt _ (by decide)⟩).val ∧
      (cpu.FetchW c).2.1.PC.val = (cpu.PC.val + 2) % 65536 ∧
      (cpu.FetchW c).2.1.memory = cpu.memory ∧
      (cpu.FetchW c).2.1.SP = cpu.SP ∧
      (cpu.FetchW c).2.1.A = cpu.A ∧ (cpu.FetchW c).2.1.X = cpu.X ∧
      (cpu.FetchW c).2.1.Y = cpu.Y ∧ (cpu.FetchW c).2.1.Flag = cpu.Flag ∧
      (cpu.memory.Data cpu.PC = 0xCD →
        cpu.memory.Data ⟨(cpu.PC.val + 1) % 65536, Nat.mod_lt _ (by decide)⟩ = 0xAB →
        (cpu.FetchW c).1 = 0xABCD) := by
  have hval : (cpu.FetchW c).1.val =
      (cpu.memory.Data cpu.PC).val +
        256 * (cpu.memory.Data ⟨(cpu.PC.val + 1) % 65536, Nat.mod_lt _ (by decide)⟩).val := by
    have h0 : (toWord (cpu.memory.ReadByte (toU32 cpu.PC.val)).val).val
        = (cpu.memory.Data cpu.PC).val := by
      rw [Mem.ReadByte_word, toWord_val]
      have := (cpu.memory.Data cpu.PC).isLt
      omega
    show (toWord ((toWord (cpu.memory.ReadByte (toU32 cpu.PC.val)).val).val |||
      ((cpu.memory.ReadByte (toU32 (toWord (cpu.PC.val + 1)).val)).val <<< 8))).val = _
    rw [h0, Mem.ReadByte_word, combine_val]
    rfl
  refine ⟨hval, ?_, rfl, rfl, rfl, rfl, rfl, rfl, ?_⟩
  · show ((cpu.PC.val + 1) % 65536 + 1) % 65536 = (cpu.PC.val + 2) % 65536
    omega
  · intro hlo hhi
    apply Fin.ext
    rw [hval, hlo, hhi]
    rfl

theorem FetchW_little_endian_witness :
    (edgeCPU.WByte 0xCD 0xFFFF 0).1.memory.Data 0xFFFF = 0xCD ∧
      (edgeCPU.WByte 0xCD 0xFFFF 0).1.memory.Data 0x0000 = 0x00 ∧
      ((edgeCPU.WByte 0xCD 0xFFFF 0).1.FetchW 10).1 = 0x00CD ∧
      ((edgeCPU.WByte 0xCD 0xFFFF 0).1.FetchW 10).2.1.PC = 0x0001 ∧
      ((({ sampleCPU with PC := 0x0101 } : CPU).WByte 0xAB 0x0102 0).1.FetchW 10).1 = 0xABCD :=
  ⟨by decide, by decide, by decide, by decide,
    (FetchW_little_endian (({ sampleCPU with PC := 0x0101 } : CPU).WByte 0xAB 0x0102 0).1
      10).2.2.2.2.2.2.2.2 (by decide) (by decide)⟩

/-- C6: for every state and every 16-bit address `a`, `RWord(a)` returns
(byte at `a`) + 256 * (byte at `(a + 1) mod 65536`), which is exactly the combination of
the two `RByte` calls at `a` and `a + 1` with the low byte first; with `0xAB` at `0x100`
and `0xCD` at `0x101`, `RWord(0x100)` is `0xCDAB`. -/
theorem RWord_little_endian (cpu : CPU) (a : Word) (c : s32) :
    (cpu.RWord a c).1.val =
        (cpu.memory.Data a).val +
          256 * (cpu.memory.Data ⟨(a.val + 1) % 65536, Nat.mod_lt _ (by decide)⟩).val ∧
      (cpu.RWord a c).1.val =
        (cpu.RByte a c).1.val +
          256 * ((cpu.RByte a c).2.1.RByte (toWord (a.val + 1)) (cpu.RByte a c).2.2).1.val ∧
      (cpu.RWord a c).1.val =
        (cpu.memory.ReadByte (toU32 a.val)).val +
          256 * (cpu.memory.ReadByte (toU32 ((a.val + 1) % 65536))).val ∧
      (cpu.memory.Data 0x100 = 0xAB → cpu.memory.Data 0x101 = 0xCD →
        (cpu.RWord 0x100 c).1 = 0xCDAB) := by
  have hrd : ∀ b : Word, (cpu.RWord b c).1.val =
      (cpu.memory.ReadByte (toU32 b.val)).val +
        256 * (cpu.memory.ReadByte (toU32 ((b.val + 1) % 65536))).val := by
    intro b
    show (toWord ((cpu.memory.ReadByte (toU32 b.val)).val |||
      ((cpu.memory.ReadByte (toU32 (toWord (b.val + 1)).val)).val <<< 8))).val = _
    rw [combine_val]
    rfl
  have hcell : ∀ b : Word, (cpu.RWord b c).1.val =
      (cpu.memory.Data b).val +
        256 * (cpu.memory.Data ⟨(b.val + 1) % 65536, Nat.mod_lt _ (by decide)⟩).val := by
    intro b
    rw [hrd b, Mem.ReadByte_word]
    have h := Mem.ReadByte_word cpu.memory (toWord (b.val + 1))
    rw [toWord_val] at h
    rw [h]
    rfl
  refine ⟨hcell a, ?_, hrd a, ?_⟩
  · rw [hrd a]
    rfl
  · intro hlo hhi
    apply Fin.ext
    rw [hcell]
    have hhi2 : cpu.memory.Data
        ⟨(((0x100 : Word)).val + 1) % 65536, Nat.mod_lt _ (by decide)⟩ = 0xCD := hhi
    rw [hlo, hhi2]
    rfl

theorem RWord_little_endian_witness :
    sampleCPU.memory.Data 0x100 = 0xAB ∧ sampleCPU.memory.Data 0x101 = 0xCD ∧
      (sampleCPU.RWord 0x100 10).1 = 0xCDAB :=
  ⟨by decide, by decide,
    (RWord_little_endian sampleCPU 0x100 10).2.2.2 (by decide) (by decide)⟩

/-- C8: for every state and every initial budget `c` with both `c` and `c - 2`
representable in signed 32 bits, the budget afterwards is `c - 1` for `Fetch`, `FetchS`,
`RByte` and `WByte`, and `c - 2` for `FetchW`, `RWord`, `WWord`, `PWtoS`, `PPCmtoS`,
`PPCptoS`, `PPCtoS`, `PBontoS`, `PBfromS` and `PWfromS`, whatever the state and the
arguments are. -/
theorem cycle_accounting (cpu : CPU) (c : Int) (a : Word) (v : Byte) (w : Word)
    (hlo : -2147483648 ≤ c - 2) (hhi : c ≤ 2147483647) :
    (cpu.Fetch c).2.2 = c - 1 ∧ (cpu.FetchS c).2.2 = c - 1 ∧
      (cpu.RByte a c).2.2 = c - 1 ∧ (cpu.WByte v a c).2 = c - 1 ∧
      (cpu.FetchW c).2.2 = c - 2 ∧ (cpu.RWord a c).2.2 = c - 2 ∧
      (cpu.WWord w a c).2 = c - 2 ∧ (cpu.PWtoS w c).2 = c - 2 ∧
      (cpu.PPCmtoS c).2 = c - 2 ∧ (cpu.PPCptoS c).2 = c - 2 ∧
      (cpu.PPCtoS c).2 = c - 2 ∧ (cpu.PBontoS v c).2 = c - 2 ∧
      (cpu.PBfromS c).2.2 = c - 2 ∧ (cpu.PWfromS c).2.2 = c - 2 := by
  have h1 : wrapS32 (c - 1) = c - 1 := wrapS32_of_range _ (by omega) (by omega)
  have h2 : wrapS32 (c - 2) = c - 2 := wrapS32_of_range _ (by omega) (by omega)
  have h11 : wrapS32 (wrapS32 (c - 1) - 1) = c - 2 := by
    rw [h1, wrapS32_of_range _ (by omega) (by omega)]
    exact (by omega : c - 1 - 1 = c - 2)
  exact ⟨h1, h1, h1, h1, h2, h11, h2, h11, h11, h11, h11, h11, h11, h11⟩

theorem cycle_accounting_witness :
    (sampleCPU.Fetch 10).2.2 = 9 ∧ (sampleCPU.WWord 0x1234 0x0102 10).2 = 8 ∧
      (sampleCPU.PWtoS 0x5678 10).2 = 8 ∧ (sampleCPU.PWfromS 10).2.2 = 8 :=
  have h := cycle_accounting sampleCPU 10 0x0102 0x00 0x1234 (by decide) (by decide)
  have h5 := cycle_accounting sampleCPU 10 0x0102 0x00 0x5678 (by decide) (by decide)
  ⟨h.1, h.2.2.2.2.2.2.1, h5.2.2.2.2.2.2.2.1, h.2.2.2.2.2.2.2.2.2.2.2.2.2⟩

/-- C9: for every state with stack pointer `s` and every 16-bit value `v`, after
`PWtoS(v)` the cell at `0x0100 | s` holds the high byte of `v`, the cell at
`0x0100 | ((s - 1) mod 256)` holds the low byte of `v`, the stack pointer is
`(s - 2) mod 256`, and every other memory cell, the program counter, the registers and
the flags are unchanged. -/
theorem PWtoS_layout (cpu : CPU) (v : Word) (c : s32) :
    ((cpu.PWtoS v c).1.memory.ReadByte (toU32 (0x100 ||| cpu.SP.val))).val = v.val / 256 ∧
      ((cpu.PWtoS v c).1.memory.ReadByte
        (toU32 (0x100 ||| (((cpu.SP.val : Int) - 1) % 256).toNat))).val = v.val % 256 ∧
      ((cpu.PWtoS v c).1.SP.val : Int) = ((cpu.SP.val : Int) - 2) % 256 ∧
      (∀ i : Fin MAX_MEM, (cpu.PWtoS v c).1.memory.Data i =
        if i.val = (0x100 ||| cpu.SP.val) then toByte (v.val / 256)
        else if i.val = (0x100 ||| (((cpu.SP.val : Int) - 1) % 256).toNat) then
          toByte (v.val % 256)
        else cpu.memory.Data i) ∧
      (cpu.PWtoS v c).1.PC = cpu.PC ∧
      (cpu.PWtoS v c).1.A = cpu.A ∧ (cpu.PWtoS v c).1.X = cpu.X ∧
      (cpu.PWtoS v c).1.Y = cpu.Y ∧ (cpu.PWtoS v c).1.Flag = cpu.Flag := by
  have hs := cpu.SP.isLt
  have hv := v.isLt
  have e1 : (((cpu.SP.val : Int) - 1) % 256).toNat = (cpu.SP.val + 255) % 256 := by omega
  have e2 : (0x100 ||| cpu.SP.val) = 256 + cpu.SP.val := lor_256 _ hs
  have e3 : (0x100 ||| ((cpu.SP.val + 255) % 256)) = 256 + (cpu.SP.val + 255) % 256 :=
    lor_256 _ (Nat.mod_lt _ (by decide))
  rw [e1, e2, e3]
  refine ⟨?_, ?_, ?_, ?_, rfl, rfl, rfl, rfl, rfl⟩
  · have hlt : (toU32 (256 + cpu.SP.val)).val < MAX_MEM := by
      rw [toU32_val_of_lt _ (by omega)]; simp only [MAX_MEM]; omega
    rw [Mem.ReadByte_of_lt _ _ hlt, CPU.PWtoS_Data]
    have hv1 : (toU32 (256 + cpu.SP.val)).val = 256 + cpu.SP.val :=
      toU32_val_of_lt _ (by omega)
    have hne : ¬ (256 + cpu.SP.val = 256 + (cpu.SP.val + 255) % 256) := by omega
    simp only [hv1, hne, if_false, if_true, toByte_val]
    omega
  · have hv1 : (toU32 (256 + (cpu.SP.val + 255) % 256)).val
        = 256 + (cpu.SP.val + 255) % 256 := toU32_val_of_lt _ (by omega)
    have hlt : (toU32 (256 + (cpu.SP.val + 255) % 256)).val < MAX_MEM := by
      rw [hv1]; simp only [MAX_MEM]; omega
    rw [Mem.ReadByte_of_lt _ _ hlt, CPU.PWtoS_Data]
    simp only [hv1, if_true, toByte_val]
    omega
  · rw [CPU.PWtoS_SP]
    omega
  · intro i
    rw [CPU.PWtoS_Data]
    by_cases h1 : i.val = 256 + cpu.SP.val
    · have hne : ¬ (i.val = 256 + (cpu.SP.val + 255) % 256) := by omega
      simp only [h1, hne, if_false, if_true]
      rw [if_neg (by omega)]
    · by_cases h2 : i.val = 256 + (cpu.SP.val + 255) % 256
      · simp only [h1, h2, if_false, if_true]
        rw [if_neg (by omega)]
      · simp only [h1, h2, if_false]

/-- C10: for every state with stack pointer `s`, `PWfromS` returns the value `RWord` gives
at address `(0x0100 | s) + 1` (low byte at `(0x0100 | s) + 1`, high byte at
`(0x0100 | s) + 2`), and leaves the stack pointer at `(s + 2) mod 256`, with memory and
program counter unchanged. -/
theorem PWfromS_spec (cpu : CPU) (c : s32) :
    (cpu.PWfromS c).1 = (cpu.RWord (toWord ((0x100 ||| cpu.SP.val) + 1)) c).1 ∧
      (cpu.PWfromS c).1.val =
        (cpu.memory.ReadByte (toU32 ((0x100 ||| cpu.SP.val) + 1))).val +
          256 * (cpu.memory.ReadByte (toU32 ((0x100 ||| cpu.SP.val) + 2))).val ∧
      (cpu.PWfromS c).2.1.SP.val = (cpu.SP.val + 2) % 256 ∧
      (cpu.PWfromS c).2.1.memory = cpu.memory ∧
      (cpu.PWfromS c).2.1.PC = cpu.PC := by
  have hs := cpu.SP.isLt
  have e : (0x100 ||| cpu.SP.val) = 256 + cpu.SP.val := lor_256 _ hs
  refine ⟨?_, ?_, rfl, rfl, rfl⟩
  · have ha : toWord (cpu.GetSPAddress.val + 1) = toWord ((0x100 ||| cpu.SP.val) + 1) := by
      rw [CPU.GetSPAddress_val, e]
    show (cpu.RWord (toWord (cpu.GetSPAddress.val + 1)) c).1 = _
    rw [ha]
  · rw [CPU.PWfromS_val, e]
    have e1 : 256 + cpu.SP.val + 1 = 257 + cpu.SP.val := by omega
    have e2 : 256 + cpu.SP.val + 2 = 258 + cpu.SP.val := by omega
    rw [e1, e2]

/-- C4: starting from a freshly reset state (stack pointer `0xFF`), for every 16-bit
value `v`, `PWtoS(v)` followed by `PWfromS` returns `v` and leaves the stack pointer at
`0xFF` again; in particular for `0x1234` and `0x5678`. -/
theorem Reset_PWtoS_PWfromS_round_trip (cpu : CPU) (v : Word) (c1 c2 : s32) :
    cpu.Reset.SP.val = 0xFF ∧
      ((cpu.Reset.PWtoS v c1).1.PWfromS c2).1 = v ∧
      ((cpu.Reset.PWtoS v c1).1.PWfromS c2).2.1.SP.val = 0xFF ∧
      ((cpu.Reset.PWtoS 0x1234 c1).1.PWfromS c2).1 = 0x1234 ∧
      ((cpu.Reset.PWtoS 0x5678 c1).1.PWfromS c2).1 = 0x5678 := by
  have h2 : 2 ≤ cpu.Reset.SP.val := by
    show 2 ≤ 255 % 256
    decide
  have key := fun w => CPU.PWtoS_PWfromS_of_two_le cpu.Reset w c1 c2 h2
  refine ⟨rfl, (key v).1, ?_, (key 0x1234).1, (key 0x5678).1⟩
  rw [(key v).2]
  rfl

/-- C11: for every state with program counter `p`, `PPCmtoS`, `PPCptoS` and `PPCtoS`
produce exactly the result (state and budget) that `PWtoS` produces for the word
`(p - 1) mod 65536`, the word `(p + 1) mod 65536` and `p` itself, and they leave the
program counter at `p`. -/
theorem PPC_pushes_are_PWtoS (cpu : CPU) (c : s32) :
    (∀ w : Word, (w.val : Int) = ((cpu.PC.val : Int) - 1) % 65536 →
        cpu.PPCmtoS c = cpu.PWtoS w c) ∧
      (∀ w : Word, (w.val : Int) = ((cpu.PC.val : Int) + 1) % 65536 →
        cpu.PPCptoS c = cpu.PWtoS w c) ∧
      cpu.PPCtoS c = cpu.PWtoS cpu.PC c ∧
      (cpu.PPCmtoS c).1.PC = cpu.PC ∧ (cpu.PPCptoS c).1.PC = cpu.PC ∧
      (cpu.PPCtoS c).1.PC = cpu.PC := by
  refine ⟨?_, ?_, rfl, rfl, rfl, rfl⟩
  · intro w hw
    have e : intToWord ((cpu.PC.val : Int) - 1) = w := by
      apply Fin.ext
      simp only [intToWord]
      omega
    show cpu.PWtoS (intToWord ((cpu.PC.val : Int) - 1)) c = _
    rw [e]
  · intro w hw
    have e : intToWord ((cpu.PC.val : Int) + 1) = w := by
      apply Fin.ext
      simp only [intToWord]
      omega
    show cpu.PWtoS (intToWord ((cpu.PC.val : Int) + 1)) c = _
    rw [e]

theorem PPC_pushes_are_PWtoS_witness :
    edgeCPU.PPCmtoS 10 = edgeCPU.PWtoS 0xFFFE 10 ∧
      edgeCPU.PPCptoS 10 = edgeCPU.PWtoS 0x0000 10 ∧
      (edgeCPU.PPCptoS 10).1.PC = 0xFFFF :=
  ⟨(PPC_pushes_are_PWtoS edgeCPU 10).1 0xFFFE (by decide),
    (PPC_pushes_are_PWtoS edgeCPU 10).2.1 0x0000 (by decide),
    (PPC_pushes_are_PWtoS edgeCPU 10).2.2.2.2.1⟩

/-- C12: for every state, `FetchS` returns the integer `r` in `[-128, 127]` that is
congruent modulo 256 to the byte `b` that `Fetch` returns (`b` when `b < 128`, otherwise
`b - 256`), and leaves exactly the state and budget that `Fetch` leaves. -/
theorem FetchS_twos_complement (cpu : CPU) (c : s32) :
    (-128 : Int) ≤ (cpu.FetchS c).1 ∧ (cpu.FetchS c).1 ≤ (127 : Int) ∧
      (cpu.FetchS c).1 % 256 = ((cpu.Fetch c).1.val : Int) ∧
      (cpu.FetchS c).1 =
        (if (cpu.Fetch c).1.val < 128 then ((cpu.Fetch c).1.val : Int)
          else ((cpu.Fetch c).1.val : Int) - 256) ∧
      (cpu.FetchS c).2.1 = (cpu.Fetch c).2.1 ∧
      (cpu.FetchS c).2.2 = (cpu.Fetch c).2.2 := by
  have hb := (cpu.Fetch c).1.isLt
  have hr : (cpu.FetchS c).1 =
      (if (cpu.Fetch c).1.val < 128 then ((cpu.Fetch c).1.val : Int)
        else ((cpu.Fetch c).1.val : Int) - 256) := rfl
  refine ⟨?_, ?_, ?_, hr, rfl, rfl⟩
  · rw [hr]
    split_ifs <;> omega
  · show @LE.le Int _ _ _
    rw [hr]
    split_ifs <;> omega
  · show @Eq Int (@HMod.hMod Int Int Int _ _ _) _
    rw [hr]
    split_ifs <;> omega

/-- C13: from every prior state, after `Reset` the flags `C`, `Z`, `I`, `D`, `B`, `V` and
`N` are all `0` and the `Unused` flag has the value it had before. -/
theorem Reset_flags (cpu : CPU) :
    cpu.Reset.Flag.C = 0 ∧ cpu.Reset.Flag.Z = 0 ∧ cpu.Reset.Flag.I = 0 ∧
      cpu.Reset.Flag.D = 0 ∧ cpu.Reset.Flag.B = 0 ∧ cpu.Reset.Flag.V = 0 ∧
      cpu.Reset.Flag.N = 0 ∧ cpu.Reset.Flag.Unused = cpu.Flag.Unused :=
  ⟨rfl, rfl, rfl, rfl, rfl, rfl, rfl, rfl⟩

/-- C14: for every state and every 16-bit address `a`, `RByte(a)` returns the memory byte
at `a` and leaves the program counter, the stack pointer, `A`, `X`, `Y`, the flags and
every memory cell unchanged. -/
theorem RByte_read_only (cpu : CPU) (a : Word) (c : s32) :
    (cpu.RByte a c).1 = cpu.memory.Data a ∧
      (cpu.RByte a c).2.1.PC = cpu.PC ∧ (cpu.RByte a c).2.1.SP = cpu.SP ∧
      (cpu.RByte a c).2.1.A = cpu.A ∧ (cpu.RByte a c).2.1.X = cpu.X ∧
      (cpu.RByte a c).2.1.Y = cpu.Y ∧ (cpu.RByte a c).2.1.Flag = cpu.Flag ∧
      (∀ i : Fin MAX_MEM, (cpu.RByte a c).2.1.memory.Data i = cpu.memory.Data i) ∧
      (cpu.RByte a c).2.1 = cpu := by
  refine ⟨?_, rfl, rfl, rfl, rfl, rfl, rfl, fun _ => rfl, rfl⟩
  show cpu.memory.ReadByte (toU32 a.val) = _
  exact Mem.ReadByte_word cpu.memory a

/-- C15: for every state, with stack pointer `s`, `GetSPAddress` is
`0x0100 | s`, which equals `0x0100 + s` and lies in `[0x0100, 0x01FF]`; it is a function
of the stack pointer alone (the member function is `const`, so it returns no new
state). -/
theorem GetSPAddress_spec (cpu : CPU) :
    cpu.GetSPAddress.val = (0x0100 ||| cpu.SP.val) ∧
      cpu.GetSPAddress.val = 0x0100 + cpu.SP.val ∧
      0x0100 ≤ cpu.GetSPAddress.val ∧ cpu.GetSPAddress.val ≤ 0x01FF ∧
      (∀ (pc : Word) (a x y : Byte) (m : Mem) (f : StatusFlags),
        (CPU.mk pc cpu.SP m a x y f).GetSPAddress = cpu.GetSPAddress) := by
  have hs := cpu.SP.isLt
  have h := cpu.GetSPAddress_val
  refine ⟨?_, h, ?_, ?_, ?_⟩
  · rw [h, lor_256 _ hs]
  · omega
  · omega
  · intro pc a x y m f
    rfl

/-- C19: for every state, with any stack pointer `s` in `0..255`, and every byte `v`,
`PBontoS(v)` followed by `PBfromS` returns `v` and leaves the stack pointer at `s`;
`PBontoS` stores `v` at `0x0100 | s` and leaves the stack pointer at `(s - 1) mod 256`,
so from `s = 0` the pointer wraps to `0xFF` and the round trip still holds. -/
theorem PBontoS_PBfromS_round_trip (cpu : CPU) (v : Byte) (c1 c2 : s32) :
    ((cpu.PBontoS v c1).1.PBfromS c2).1 = v ∧
      ((cpu.PBontoS v c1).1.PBfromS c2).2.1.SP = cpu.SP ∧
      (cpu.PBontoS v c1).1.memory.ReadByte (toU32 (0x0100 ||| cpu.SP.val)) = v ∧
      ((cpu.PBontoS v c1).1.SP.val : Int) = ((cpu.SP.val : Int) - 1) % 256 ∧
      (({ cpu with SP := 0x00 } : CPU).PBontoS v c1).1.SP = 0xFF ∧
      ((({ cpu with SP := 0x00 } : CPU).PBontoS v c1).1.PBfromS c2).1 = v ∧
      ((({ cpu with SP := 0x00 } : CPU).PBontoS v c1).1.PBfromS c2).2.1.SP = 0x00 := by
  have hs := cpu.SP.isLt
  have h := CPU.PBontoS_PBfromS cpu v c1 c2
  have h0 := CPU.PBontoS_PBfromS ({ cpu with SP := 0x00 } : CPU) v c1 c2
  refine ⟨h.1, h.2, ?_, ?_, rfl, h0.1, h0.2⟩
  · have e : toU32 (0x0100 ||| cpu.SP.val) = toU32 cpu.GetSPAddress.val := by
      rw [CPU.GetSPAddress_val, lor_256 _ hs]
    have hlt : (toU32 cpu.GetSPAddress.val).val < MAX_MEM := by
      rw [toU32_val_of_lt _ (by have := cpu.GetSPAddress.isLt; omega)]
      exact cpu.GetSPAddress.isLt
    rw [e]
    show (cpu.memory.WriteByte (toU32 cpu.GetSPAddress.val) v).ReadByte
      (toU32 cpu.GetSPAddress.val) = v
    rw [Mem.ReadByte_WriteByte]
    simp [hlt]
  · show (((intToByte ((cpu.SP.val : Int) - 1)).val : Nat) : Int) = _
    rw [intToByte_pred_val]
    omega

/-- C20: `Reset` is idempotent, two states with the same `Unused` flag reset to the same
state, and the `Unused` flag is all that a reset state retains of the prior state. -/
theorem Reset_idempotent_forgets :
    (∀ s : CPU, s.Reset.Reset = s.Reset) ∧
      (∀ s1 s2 : CPU, s1.Flag.Unused = s2.Flag.Unused → s1.Reset = s2.Reset) ∧
      (∀ s1 s2 : CPU, s1.Reset = s2.Reset → s1.Flag.Unused = s2.Flag.Unused) := by
  refine ⟨fun _ => rfl, ?_, ?_⟩
  · intro s1 s2 h
    show CPU.mk _ _ _ _ _ _ (StatusFlags.mk 0 0 0 0 0 s1.Flag.Unused 0 0) =
      CPU.mk _ _ _ _ _ _ (StatusFlags.mk 0 0 0 0 0 s2.Flag.Unused 0 0)
    rw [h]
    rfl
  · intro s1 s2 h
    have h2 : s1.Reset.Flag.Unused = s2.Reset.Flag.Unused := by rw [h]
    exact h2

theorem Reset_idempotent_forgets_witness :
    sampleCPU.Flag.Unused = edgeCPU.Flag.Unused ∧ sampleCPU.PC ≠ edgeCPU.PC ∧
      sampleCPU.SP ≠ edgeCPU.SP ∧ sampleCPU.Reset = edgeCPU.Reset :=
  ⟨by decide, by decide, by decide,
    Reset_idempotent_forgets.2.1 sampleCPU edgeCPU (by decide)⟩

/-! ## Where the word operations leave their intended range -/

/-- C16 (the code at the failing input): `WWord` at address `0xFFFF` stores only the low
byte, because the high byte is addressed at `0x10000`, which `Mem::WriteByte` discards;
`RWord` at `0xFFFF` takes its high byte from cell `0`.  So the word read back is
`v mod 256 + 256 * mem[0]` with the old cell `0`; writing `0x1234` to the demo memory
reads back `0x0034`. -/
theorem WWord_RWord_last_address (cpu : CPU) (v : Word) (c1 c2 : s32) :
    ((cpu.WWord v 0xFFFF c1).1.RWord 0xFFFF c2).1.val =
        v.val % 256 + 256 * (cpu.memory.Data 0x0000).val ∧
      (cpu.WWord v 0xFFFF c1).1.memory.Data 0x0000 = cpu.memory.Data 0x0000 ∧
      ((sampleCPU.WWord 0x1234 0xFFFF 10).1.RWord 0xFFFF 10).1 = 0x0034 ∧
      ((sampleCPU.WWord 0x1234 0xFFFF 10).1.RWord 0xFFFF 10).1 ≠ 0x1234 := by
  have hv := v.isLt
  have h0 : (cpu.WWord v 0xFFFF c1).1.memory.Data 0x0000 = cpu.memory.Data 0x0000 := by
    rw [CPU.WWord_Data]
    rfl
  refine ⟨?_, h0, by decide, by decide⟩
  rw [CPU.RWord_val]
  have e : (cpu.WWord v 0xFFFF c1).1.memory.Data (toWord ((0xFFFF : Word).val + 1))
      = cpu.memory.Data 0x0000 := h0
  rw [e, CPU.WWord_Data]
  show (toByte (v.val % 256)).val + _ = _
  rw [toByte_val]
  omega

/-- C17 (the code at the failing inputs): a push from stack pointer `0` stores the high
byte at `0x0100` and the low byte at `0x01FF`, and the pop that follows reads `0x01FF`
and `0x0200`; a push from stack pointer `1` is followed by a pop that reads `0x0200` and
`0x0201`.  The stack pointer is restored, the value is not: pushing `0x1234` from stack
pointer `0` pops `0x0034`. -/
theorem PWtoS_PWfromS_low_pointer (cpu : CPU) (v : Word) (c1 c2 : s32) :
    ((({ cpu with SP := 0x00 } : CPU).PWtoS v c1).1.PWfromS c2).1.val =
        v.val % 256 + 256 * (cpu.memory.Data 0x0200).val ∧
      ((({ cpu with SP := 0x01 } : CPU).PWtoS v c1).1.PWfromS c2).1.val =
        (cpu.memory.Data 0x0200).val + 256 * (cpu.memory.Data 0x0201).val ∧
      edgeCPU.SP = 0x00 ∧
      ((edgeCPU.PWtoS 0x1234 10).1.PWfromS 10).1 = 0x0034 ∧
      ((edgeCPU.PWtoS 0x1234 10).1.PWfromS 10).1 ≠ 0x1234 ∧
      ((edgeCPU.PWtoS 0x1234 10).1.PWfromS 10).2.1.SP = 0x00 := by
  have hv := v.isLt
  have key0 : ∀ x : CPU, x.SP.val = 0 → ((x.PWtoS v c1).1.PWfromS c2).1.val =
      v.val % 256 + 256 * (x.memory.Data 0x0200).val := by
    intro x hx
    have e1 : 257 + (0 + 254) % 256 = 511 := rfl
    have e2 : 258 + (0 + 254) % 256 = 512 := rfl
    rw [CPU.PWfromS_val, CPU.PWtoS_SP, hx, e1, e2,
      Mem.ReadByte_nat _ 511 (by decide), Mem.ReadByte_nat _ 512 (by decide),
      CPU.PWtoS_Data, CPU.PWtoS_Data, hx]
    have t1 : 511 = 256 + (0 + 255) % 256 := rfl
    have f1 : ¬ (512 = 256 + (0 + 255) % 256) := by decide
    have f2 : ¬ (512 = 256 + 0) := by decide
    rw [if_pos t1, if_neg f1, if_neg f2, toByte_val]
    have e3 : x.memory.Data ⟨512, by decide⟩ = x.memory.Data 0x0200 := rfl
    rw [e3]
    omega
  have key1 : ∀ x : CPU, x.SP.val = 1 → ((x.PWtoS v c1).1.PWfromS c2).1.val =
      (x.memory.Data 0x0200).val + 256 * (x.memory.Data 0x0201).val := by
    intro x hx
    have e1 : 257 + (1 + 254) % 256 = 512 := rfl
    have e2 : 258 + (1 + 254) % 256 = 513 := rfl
    rw [CPU.PWfromS_val, CPU.PWtoS_SP, hx, e1, e2,
      Mem.ReadByte_nat _ 512 (by decide), Mem.ReadByte_nat _ 513 (by decide),
      CPU.PWtoS_Data, CPU.PWtoS_Data, hx]
    have f1 : ¬ (512 = 256 + (1 + 255) % 256) := by decide
    have f2 : ¬ (512 = 256 + 1) := by decide
    have f3 : ¬ (513 = 256 + (1 + 255) % 256) := by decide
    have f4 : ¬ (513 = 256 + 1) := by decide
    rw [if_neg f1, if_neg f2, if_neg f3, if_neg f4]
    rfl
  exact ⟨key0 _ rfl, key1 _ rfl, rfl, by decide, by decide, by decide⟩

/-- C18 (the code at the failing input): with the stack pointer at `0xFF`, as `Reset`
leaves it, `PWfromS` reads the cells `0x0200` and `0x0201`, which are outside the stack
page.  Two states that agree on the whole stack page and differ only in cell `0x0200`
pop different words. -/
theorem PWfromS_reads_past_stack_page (cpu : CPU) (c : s32) :
    (cpu.Reset.PWfromS c).1.val =
        (cpu.Reset.memory.Data 0x0200).val + 256 * (cpu.Reset.memory.Data 0x0201).val ∧
      (({ cpu with SP := 0xFF } : CPU).PWfromS c).1.val =
        (cpu.memory.Data 0x0200).val + 256 * (cpu.memory.Data 0x0201).val ∧
      (∀ s : Byte, (sampleCPU.WByte 0x77 0x0200 0).1.memory.Data (toWord (0x0100 + s.val))
        = sampleCPU.memory.Data (toWord (0x0100 + s.val))) ∧
      (sampleCPU.WByte 0x77 0x0200 0).1.SP = sampleCPU.SP ∧
      sampleCPU.SP = 0xFF ∧
      (sampleCPU.PWfromS 10).1 = 0x0000 ∧
      ((sampleCPU.WByte 0x77 0x0200 0).1.PWfromS 10).1 = 0x0077 := by
  have key : ∀ x : CPU, x.SP = 0xFF → (x.PWfromS c).1.val =
      (x.memory.Data 0x0200).val + 256 * (x.memory.Data 0x0201).val := by
    intro x hx
    rw [CPU.PWfromS_val, hx]
    show (x.memory.ReadByte (toU32 512)).val + 256 * (x.memory.ReadByte (toU32 513)).val = _
    rw [Mem.ReadByte_nat _ 512 (by decide), Mem.ReadByte_nat _ 513 (by decide)]
    rfl
  refine ⟨key _ rfl, key _ rfl, ?_, rfl, rfl, by decide, by decide⟩
  intro s
  have hs := s.isLt
  show (sampleCPU.memory.WriteByte (toU32 (0x0200 : Word).val) 0x77).Data
    (toWord (0x0100 + s.val)) = _
  rw [Mem.WriteByte_Data]
  have hne : ¬ ((toWord (0x0100 + s.val)).val = (toU32 (0x0200 : Word).val).val) := by
    rw [toWord_val]
    show ¬ ((0x0100 + s.val) % 65536 = 512)
    omega
  exact if_neg hne

end Emu6502
